import Mathlib

set_option linter.unusedVariables false

/-!
Shallow embedding of the guardian process supervisor
(`guardian/src/process.rs`): the per-process lifecycle state machine,
the process manager's operations (start, stop-with-grace, restart,
start_all, stop_all), discovery of externally managed processes, the
port-readiness wait, and the fuzzy process-table matcher.

Environment effects (spawning, waiting on a child, the OS process
table, wall-clock time, TCP connect attempts, the shared shutdown
flag) are modelled by explicit oracle parameters: each operation takes
the outcomes the outside world would produce.  Real time enters the
source only through loop guards (`start.elapsed() < timeout`), so a
bounded poll loop is modelled by the finite list of iterations the
guard admits.
-/

namespace Guardian

/-- The five lifecycle states of a managed process
(`ProcessState` in process.rs). -/
inductive ProcessState where
  | Stopped
  | Starting
  | Running
  | Stopping
  | Failed
deriving DecidableEq, Repr

/-- Split a character list at every `/` (the path separator). -/
def splitOnSlash : List Char → List (List Char)
  | [] => [[]]
  | c :: rest =>
    if c = '/' then [] :: splitOnSlash rest
    else
      match splitOnSlash rest with
      | [] => [[c]]
      | h :: t => (c :: h) :: t

/-- Rust `str::to_lowercase`, on the character data (ASCII-accurate;
the matcher only lowers names and tokens). -/
def strToLower (s : String) : String := String.mk (s.data.map Char.toLower)

/-- Rust `Path::new(s).file_name().and_then(|f| f.to_str())`:
split on the separator, drop empty and `.` components; the last
component is the file name unless it is `..` (or there is none). -/
def fileName (s : String) : Option String :=
  let comps := ((splitOnSlash s.data).map String.mk).filter
    (fun c => !(c == "") && !(c == "."))
  match comps.getLast? with
  | none => none
  | some l => if l == ".." then none else some l

/-- `Path::new(s).file_name()...unwrap_or(s)`: basename with fallback
to the whole string when there is no file name. -/
def fileBaseFallback (s : String) : String := (fileName s).getD s

/-- Substring test on character lists: `needle` occurs contiguously in
the list (Rust `str::contains`). -/
def charsContain (needle : List Char) : List Char → Bool
  | [] => needle.isEmpty
  | c :: rest => needle.isPrefixOf (c :: rest) || charsContain needle rest

/-- Rust `hay.contains(needle)` on strings. -/
def strContains (hay needle : String) : Bool := charsContain needle.data hay.data

/-- The observable fields of a `sysinfo::Process`: its name, optional
executable path, and command-line argument vector. -/
structure ProcInfo where
  name : String
  exe : Option String
  cmd : List String
deriving DecidableEq, Repr

/-- The executable check inside `process_matches_with_args`: the
`if let Some(exe) = process.exe()` block — the exe's basename, when it
exists, is tested for the lowered token. -/
def exe_basename_match (exe : Option String) (cmd_lower : String) : Bool :=
  match exe with
  | some e =>
    match fileName e with
    | some exe_name => strContains (strToLower exe_name) cmd_lower
    | none => false
  | none => false

/-- `process_matches_with_args` from process.rs: case-insensitive
substring match of `cmd_name` against the process name, the executable
basename, and each argument's basename; additionally, when
`expected_args` is non-empty, a match succeeds when every expected
argument equals the basename of some actual argument. -/
def process_matches_with_args (p : ProcInfo) (cmd_name : String)
    (expected_args : List String) : Bool :=
  let cmd_lower := strToLower cmd_name
  if strContains (strToLower p.name) cmd_lower then true
  else if exe_basename_match p.exe cmd_lower then true
  else if p.cmd.any (fun arg => strContains (strToLower (fileBaseFallback arg)) cmd_lower) then
    true
  else if !expected_args.isEmpty &&
      expected_args.all (fun expected =>
        p.cmd.any (fun actual => fileBaseFallback actual == expected)) then
    true
  else false

/-- `process_matches` from process.rs: match with no expected args. -/
def process_matches (p : ProcInfo) (cmd_name : String) : Bool :=
  process_matches_with_args p cmd_name []

/-- Readiness strategies (`ReadyMethod` in config.rs, as used by
`wait_for_ready`). -/
inductive ReadyMethod where
  | Log
  | Port
  | Time
deriving DecidableEq, Repr

/-- Readiness configuration: strategy, timeout (seconds), optional log
pattern, optional TCP port. -/
structure ReadyConfig where
  method : ReadyMethod
  timeout : Nat
  pattern : Option String
  port : Option Nat
deriving DecidableEq, Repr

/-- Per-process configuration (`ProcessConfig` in config.rs, the
fields process.rs reads). -/
structure ProcessConfig where
  command : String
  args : List String
  envVars : List (String × String)
  working_dir : String
  managed : Bool
  restart_delay : Nat
  ready : ReadyConfig
deriving DecidableEq, Repr

/-- `config.advanced`: the default shutdown grace period. -/
structure AdvancedConfig where
  shutdown_grace_period : Nat
deriving DecidableEq, Repr

/-- The configuration snapshot the manager is built from. -/
structure GuardianConfig where
  processes : List (String × ProcessConfig)
  advanced : AdvancedConfig
deriving DecidableEq, Repr

/-- `ManagedProcess` from process.rs.  `pid` is the OS process id;
`child` models the exclusively owned `Option<Child>` handle (carrying
its pid); timestamps are abstract clock readings. -/
structure ManagedProcess where
  name : String
  config : ProcessConfig
  state : ProcessState
  pid : Option Nat
  child : Option Nat
  started_at : Option Nat
  restart_count : Nat
  last_exit_code : Option Int
  restart_timestamps : List Nat
deriving DecidableEq, Repr

/-- `ManagedProcess::new`: initial bookkeeping state. -/
def ManagedProcess.new (name : String) (config : ProcessConfig) : ManagedProcess :=
  { name := name
    config := config
    state := ProcessState.Stopped
    pid := none
    child := none
    started_at := none
    restart_count := 0
    last_exit_code := none
    restart_timestamps := [] }

/-- The manager's name → process map (`HashMap<String, Arc<Mutex<ManagedProcess>>>`),
modelled as an association list with unique keys by construction. -/
abbrev Mgr := List (String × ManagedProcess)

/-- `HashMap::get` on the association list (first matching key). -/
def lookupP : Mgr → String → Option ManagedProcess
  | [], _ => none
  | (k, v) :: rest, n => if k = n then some v else lookupP rest n

/-- In-place mutation of the process behind the `Arc<Mutex<..>>`:
replace the first entry with the given key. -/
def updateP : Mgr → String → (ManagedProcess → ManagedProcess) → Mgr
  | [], _, _ => []
  | (k, v) :: rest, n, f =>
    if k = n then (k, f v) :: rest else (k, v) :: updateP rest n f

/-- `ProcessManager::new`: one `ManagedProcess` per configured name. -/
def newManager (cfg : GuardianConfig) : Mgr :=
  cfg.processes.map (fun nc => (nc.1, ManagedProcess.new nc.1 nc.2))

/-- Oracle for one `start_process` call: the spawn outcome (pid of the
fresh child on success — a just-spawned tokio child always has an id),
the OS process table snapshot seen by discovery, and the clock. -/
structure StartEnv where
  spawn : Except Unit Nat
  table : List (Nat × ProcInfo)
  now : Nat
deriving Repr

/-- Outcome of awaiting a child inside the grace period
(`tokio::time::timeout(grace, child.wait())`). -/
inductive WaitOutcome where
  | exited (code : Option Int)
  | waitErr
  | timedOut
deriving DecidableEq, Repr

/-- The scan loop in `discover_external_process`: first process in the
table matching the command name. -/
def findMatch : List (Nat × ProcInfo) → String → Option Nat
  | [], _ => none
  | (pid, info) :: rest, cmd =>
    if process_matches info cmd then some pid else findMatch rest cmd

/-- `discover_external_process`, acting on the locked process record:
match found → Running with the discovered pid and no child handle;
no match → Stopped with pid cleared (absence is not an error). -/
def discover_external_process (p : ManagedProcess) (env : StartEnv) :
    ManagedProcess × Except String Unit :=
  let cmd_name := fileBaseFallback p.config.command
  match findMatch env.table cmd_name with
  | some pid =>
    ({ p with pid := some pid
              child := none
              state := ProcessState.Running
              started_at := some env.now }, Except.ok ())
  | none =>
    ({ p with state := ProcessState.Stopped, pid := none }, Except.ok ())

/-- `ProcessManager::start_process`: no-op when already Running;
discovery when unmanaged; otherwise spawn (through `Starting`, which
is overwritten before the lock is released) and end Running on
success, Failed with the error surfaced on failure. -/
def start_process (mgr : Mgr) (name : String) (env : StartEnv) :
    Mgr × Except String Unit :=
  match lookupP mgr name with
  | none => (mgr, Except.error ("Process '" ++ name ++ "' not found"))
  | some p =>
    if p.state = ProcessState.Running then (mgr, Except.ok ())
    else if p.config.managed = false then
      let (p', r) := discover_external_process p env
      (updateP mgr name (fun _ => p'), r)
    else
      match env.spawn with
      | Except.ok pid =>
        (updateP mgr name (fun _ =>
          { p with pid := some pid
                   child := some pid
                   state := ProcessState.Running
                   started_at := some env.now }), Except.ok ())
      | Except.error _ =>
        (updateP mgr name (fun _ => { p with state := ProcessState.Failed }),
         Except.error ("Failed to start process '" ++ name ++ "'"))

/-- The body of `stop_process_with_grace` once the process is known
and not already Stopped: unmanaged processes only have their tracking
state cleared; managed processes go through Stopping, the terminate /
bounded-wait / force-kill sequence (whose outcome `w` only affects the
recorded exit code — every wait or kill failure is logged and
swallowed), and always end Stopped with pid and child cleared.
The transient `state = Stopping` set on entry is unconditionally
overwritten by the final `Stopped` assignment before the lock is
released, so only the exit-code bookkeeping distinguishes the wait
outcomes: a graceful exit records the status code, while a wait error
and the force-kill path (whose kill/wait results are discarded) leave
it untouched. -/
def stop_step (gcfg : GuardianConfig) (p : ManagedProcess)
    (grace_period : Option Nat) (w : WaitOutcome) : ManagedProcess :=
  if p.config.managed = false then
    { p with state := ProcessState.Stopped, pid := none, child := none }
  else
    let grace := grace_period.getD gcfg.advanced.shutdown_grace_period
    let newExit :=
      match p.child, w with
      | some _, WaitOutcome.exited code => code
      | _, _ => p.last_exit_code
    { p with state := ProcessState.Stopped
             pid := none
             child := none
             last_exit_code := newExit }

/-- `ProcessManager::stop_process_with_grace`: error for an unknown
name, no-op when already Stopped, otherwise `stop_step`; never returns
an error for a configured process. -/
def stop_process_with_grace (gcfg : GuardianConfig) (mgr : Mgr) (name : String)
    (grace_period : Option Nat) (w : WaitOutcome) : Mgr × Except String Unit :=
  match lookupP mgr name with
  | none => (mgr, Except.error ("Process '" ++ name ++ "' not found"))
  | some p =>
    if p.state = ProcessState.Stopped then (mgr, Except.ok ())
    else (updateP mgr name (fun _ => stop_step gcfg p grace_period w), Except.ok ())

/-- `ProcessManager::stop_process`: stop with the config-default grace. -/
def stop_process (gcfg : GuardianConfig) (mgr : Mgr) (name : String)
    (w : WaitOutcome) : Mgr × Except String Unit :=
  stop_process_with_grace gcfg mgr name none w

/-- Oracle for one `restart_process` call: the stop-phase wait
outcome, the clock reading pushed onto `restart_timestamps`, and the
start-phase oracle. -/
structure RestartEnv where
  stopWait : WaitOutcome
  now : Nat
  start : StartEnv
deriving Repr

/-- `ProcessManager::restart_process`: stop, then increment the
restart counter and push a restart timestamp before sleeping the
configured delay and re-starting. -/
def restart_process (gcfg : GuardianConfig) (mgr : Mgr) (name : String)
    (env : RestartEnv) : Mgr × Except String Unit :=
  match stop_process gcfg mgr name env.stopWait with
  | (m1, Except.error e) => (m1, Except.error e)
  | (m1, Except.ok ()) =>
    match lookupP m1 name with
    | none => (m1, Except.error ("Process '" ++ name ++ "' not found"))
    | some p =>
      let m2 := updateP m1 name (fun _ =>
        { p with restart_count := p.restart_count + 1
                 restart_timestamps := p.restart_timestamps ++ [env.now] })
      start_process m2 name env.start

/-- `ProcessManager::is_running`: unknown names are simply not
running. -/
def is_running (mgr : Mgr) (name : String) : Bool :=
  match lookupP mgr name with
  | some p => p.state = ProcessState.Running
  | none => false

/-- `ProcessManager::recent_restart_count`: restart timestamps newer
than `now - window`; 0 for unknown names. -/
def recent_restart_count (mgr : Mgr) (name : String) (now window : Nat) : Nat :=
  match lookupP mgr name with
  | some p =>
    let cutoff := now - window
    (p.restart_timestamps.filter (fun t => cutoff < t)).length
  | none => 0

/-- `ProcessManager::wait_for_port`: poll TCP connect until success or
until `start.elapsed() >= timeout`.  `connects` lists the outcome of
each connect attempt the loop guard admits before the timeout; an
exhausted list is the timeout, which is a hard error. -/
def wait_for_port (port : Nat) (connects : List Bool) : Except String Unit :=
  match connects with
  | [] => Except.error ("Timeout waiting for port " ++ toString port)
  | c :: rest => if c then Except.ok () else wait_for_port port rest

/-- Oracle for one `wait_for_ready` call: whether the configured log
pattern compiles as a regex, and the port-poll outcomes. -/
structure ReadyEnv where
  logRegexValid : Bool
  portConnects : List Bool
deriving Repr

/-- `ProcessManager::wait_for_ready`.  The log strategy's file polling
always returns Ok (it falls back to a short fixed delay); its only
error is an invalid regex, surfaced immediately.  The time strategy
sleeps a capped duration and returns Ok. -/
def wait_for_ready (rc : ReadyConfig) (env : ReadyEnv) : Except String Unit :=
  match rc.method with
  | ReadyMethod.Log =>
    match rc.pattern with
    | some pat =>
      if env.logRegexValid then Except.ok ()
      else Except.error ("Invalid regex pattern: " ++ pat)
    | none => Except.ok ()
  | ReadyMethod.Port =>
    match rc.port with
    | some port => wait_for_port port env.portConnects
    | none => Except.ok ()
  | ReadyMethod.Time => Except.ok ()

/-- `ProcessManager::wait_for_external_process`: repeatedly check the
shutdown flag, run discovery via `start_process`, and stop as soon as
the process is Running.  Each iteration supplies the flag value read
and the discovery oracle; an exhausted list is the bounded-wait
timeout, which is only a logged warning (returns Ok). -/
def wait_for_external_process (mgr : Mgr) (name : String) :
    List (Bool × StartEnv) → Mgr × Except String Unit
  | [] => (mgr, Except.ok ())
  | (flag, se) :: rest =>
    if flag = false then (mgr, Except.ok ())
    else
      match start_process mgr name se with
      | (m1, Except.error e) => (m1, Except.error e)
      | (m1, Except.ok ()) =>
        if is_running m1 name then (m1, Except.ok ())
        else wait_for_external_process m1 name rest

/-- Oracle for one name processed by `start_all_with_flag`: the
shutdown-flag value read at the top of the loop, the start oracle, the
iterations of the external-process wait, and the readiness oracle. -/
structure StepEnv where
  flag : Bool
  start : StartEnv
  extIters : List (Bool × StartEnv)
  ready : ReadyEnv
deriving Repr

/-- `HashMap::get` on the configuration map. -/
def lookupC : List (String × ProcessConfig) → String → Option ProcessConfig
  | [], _ => none
  | (k, v) :: rest, n => if k = n then some v else lookupC rest n

/-- The body of one iteration of `start_all_with_flag` (past the
shutdown-flag check): unmanaged names poll for discovery; managed
names are spawned and must then pass their readiness probe.  (The
missing config-map entry arm models the `self.config.processes[name]`
index panic; the order produced by `topological_sort` only contains
configured names, so it is unreachable in the source.) -/
def start_one (gcfg : GuardianConfig) (mgr : Mgr) (name : String)
    (env : StepEnv) : Mgr × Except String Unit :=
  match lookupC gcfg.processes name with
  | none => (mgr, Except.error ("panic: no process config for '" ++ name ++ "'"))
  | some pc =>
    if pc.managed = false then
      wait_for_external_process mgr name env.extIters
    else
      match start_process mgr name env.start with
      | (m1, Except.error e) => (m1, Except.error e)
      | (m1, Except.ok ()) =>
        match wait_for_ready pc.ready env.ready with
        | Except.error e => (m1, Except.error e)
        | Except.ok () => (m1, Except.ok ())

/-- The loop of `ProcessManager::start_all_with_flag` over the
topological order: per name, check the shutdown flag (abort with Ok if
cleared), then run the name's start/discovery step; a spawn or probe
failure aborts the remaining sequence with that error. -/
def start_all_with_flag (gcfg : GuardianConfig) :
    Mgr → List String → (String → StepEnv) → Mgr × Except String Unit
  | mgr, [], _ => (mgr, Except.ok ())
  | mgr, name :: rest, env =>
    if (env name).flag = false then (mgr, Except.ok ())
    else
      match start_one gcfg mgr name (env name) with
      | (m1, Except.error e) => (m1, Except.error e)
      | (m1, Except.ok ()) => start_all_with_flag gcfg m1 rest env

/-- The loop of `ProcessManager::stop_all` over the reversed order:
stop every name, logging (and otherwise ignoring) per-process errors,
and record the sequence of names stop was issued to. -/
def stop_seq (gcfg : GuardianConfig) :
    Mgr → List String → (String → WaitOutcome) → Mgr × List String
  | mgr, [], _ => (mgr, [])
  | mgr, name :: rest, env =>
    let m1 := (stop_process gcfg mgr name (env name)).1
    let (m2, tr) := stop_seq gcfg m1 rest env
    (m2, name :: tr)

/-- `ProcessManager::stop_all`: reverse the dependency order, stop
every process in that order continuing past per-process errors, and
return Ok.  (`order` stands for the result of
`crate::config::topological_sort`, computed outside process.rs.) -/
def stop_all (gcfg : GuardianConfig) (mgr : Mgr) (order : List String)
    (env : String → WaitOutcome) : Mgr × List String × Except String Unit :=
  let (m, tr) := stop_seq gcfg mgr order.reverse env
  (m, tr, Except.ok ())

/-! ### Manager-map lemmas -/

theorem lookupP_updateP_self {m : Mgr} {n : String} {p : ManagedProcess}
    (f : ManagedProcess → ManagedProcess) (h : lookupP m n = some p) :
    lookupP (updateP m n f) n = some (f p) := by
  induction m with
  | nil => simp [lookupP] at h
  | cons kv rest ih =>
    obtain ⟨k, v⟩ := kv
    by_cases hk : k = n
    · subst hk
      simp [lookupP] at h
      subst h
      simp [updateP, lookupP]
    · simp [lookupP, hk] at h
      simp [updateP, lookupP, hk, ih h]

theorem lookupP_updateP_ne {m : Mgr} {n n' : String}
    (f : ManagedProcess → ManagedProcess) (h : n' ≠ n) :
    lookupP (updateP m n f) n' = lookupP m n' := by
  induction m with
  | nil => simp [updateP]
  | cons kv rest ih =>
    obtain ⟨k, v⟩ := kv
    by_cases hk : k = n
    · subst hk
      have hkn : k ≠ n' := fun hh => h hh.symm
      simp [updateP, lookupP, hkn]
    · simp [updateP, lookupP, hk, ih]

theorem mem_updateP_const {m : Mgr} {n : String} {p' : ManagedProcess}
    {e : String × ManagedProcess} (h : e ∈ updateP m n (fun _ => p')) :
    e ∈ m ∨ e.2 = p' := by
  induction m with
  | nil => simp [updateP] at h
  | cons kv rest ih =>
    obtain ⟨k, v⟩ := kv
    by_cases hk : k = n
    · subst hk
      simp [updateP] at h
      rcases h with h | h
      · right; rw [h]
      · left; exact List.mem_cons_of_mem _ h
    · simp [updateP, hk] at h
      rcases h with h | h
      · left; simp [h]
      · rcases ih h with h' | h'
        · left; exact List.mem_cons_of_mem _ h'
        · right; exact h'

theorem lookupP_mem {m : Mgr} {n : String} {p : ManagedProcess}
    (h : lookupP m n = some p) : (n, p) ∈ m := by
  induction m with
  | nil => simp [lookupP] at h
  | cons kv rest ih =>
    obtain ⟨k, v⟩ := kv
    by_cases hk : k = n
    · subst hk
      simp [lookupP] at h
      simp [h]
    · simp [lookupP, hk] at h
      exact List.mem_cons_of_mem _ (ih h)

/-! ### The per-process state invariant -/

/-- The inductive strengthening of the spec's pid/state invariant, as
it holds at every lock-release point: the pid is recorded exactly when
the process is Running, the transient Starting/Stopping states are
never left behind by a completed operation, and a child handle exists
only while Running. -/
def InvS (p : ManagedProcess) : Prop :=
  (p.pid.isSome = true ↔ p.state = ProcessState.Running) ∧
  p.state ≠ ProcessState.Starting ∧
  p.state ≠ ProcessState.Stopping ∧
  (p.state ≠ ProcessState.Running → p.child = none)

/-- Every process record in the manager map satisfies `InvS`. -/
def AllInvS (m : Mgr) : Prop := ∀ e ∈ m, InvS e.2

theorem allInvS_lookup {m : Mgr} {n : String} {p : ManagedProcess}
    (h : AllInvS m) (hl : lookupP m n = some p) : InvS p :=
  h (n, p) (lookupP_mem hl)

theorem allInvS_updateP {m : Mgr} {n : String} {p' : ManagedProcess}
    (h : AllInvS m) (hp : InvS p') : AllInvS (updateP m n (fun _ => p')) := by
  intro e he
  rcases mem_updateP_const he with h' | h'
  · exact h e h'
  · rw [h']; exact hp

theorem allInvS_new (cfg : GuardianConfig) : AllInvS (newManager cfg) := by
  intro e he
  simp [newManager] at he
  obtain ⟨a, b, _, h2⟩ := he
  rw [← h2]
  refine ⟨by simp [ManagedProcess.new], by simp [ManagedProcess.new],
    by simp [ManagedProcess.new], by simp [ManagedProcess.new]⟩

theorem invS_pid_none {p : ManagedProcess} (hp : InvS p)
    (hr : p.state ≠ ProcessState.Running) : p.pid = none := by
  cases hq : p.pid with
  | none => rfl
  | some x => exact absurd (hp.1.mp (by simp [hq])) hr

theorem invS_discover {p : ManagedProcess} {env : StartEnv}
    (hp : InvS p) (hr : p.state ≠ ProcessState.Running) :
    InvS (discover_external_process p env).1 := by
  have hchild : p.child = none := hp.2.2.2 hr
  cases hf : findMatch env.table (fileBaseFallback p.config.command) with
  | some pid => simp [discover_external_process, hf, InvS]
  | none => simp [discover_external_process, hf, InvS, hchild]

theorem invS_failed {p : ManagedProcess} (hp : InvS p)
    (hr : p.state ≠ ProcessState.Running) :
    InvS { p with state := ProcessState.Failed } := by
  simp [InvS, invS_pid_none hp hr, hp.2.2.2 hr]

theorem invS_stop_step (gcfg : GuardianConfig) (p : ManagedProcess)
    (g : Option Nat) (w : WaitOutcome) : InvS (stop_step gcfg p g w) := by
  unfold stop_step
  by_cases hm : p.config.managed = false
  · rw [if_pos hm]
    simp [InvS]
  · rw [if_neg hm]
    simp [InvS]

theorem start_preserves {m : Mgr} (n : String) (env : StartEnv)
    (h : AllInvS m) : AllInvS (start_process m n env).1 := by
  unfold start_process
  cases hl : lookupP m n with
  | none => exact h
  | some p =>
    dsimp only
    have hp : InvS p := allInvS_lookup h hl
    by_cases hr : p.state = ProcessState.Running
    · rw [if_pos hr]
      exact h
    · rw [if_neg hr]
      by_cases hm : p.config.managed = false
      · rw [if_pos hm]
        exact allInvS_updateP h (invS_discover hp hr)
      · rw [if_neg hm]
        cases hs : env.spawn with
        | ok pid =>
          exact allInvS_updateP h (by simp [InvS])
        | error e =>
          exact allInvS_updateP h (invS_failed hp hr)

theorem stop_preserves {m : Mgr} (gcfg : GuardianConfig) (n : String)
    (g : Option Nat) (w : WaitOutcome) (h : AllInvS m) :
    AllInvS (stop_process_with_grace gcfg m n g w).1 := by
  unfold stop_process_with_grace
  cases hl : lookupP m n with
  | none => exact h
  | some p =>
    dsimp only
    by_cases hs : p.state = ProcessState.Stopped
    · rw [if_pos hs]
      exact h
    · rw [if_neg hs]
      exact allInvS_updateP h (invS_stop_step gcfg p g w)

theorem restart_preserves {m : Mgr} (gcfg : GuardianConfig) (n : String)
    (env : RestartEnv) (h : AllInvS m) :
    AllInvS (restart_process gcfg m n env).1 := by
  unfold restart_process
  have h1 : AllInvS (stop_process gcfg m n env.stopWait).1 :=
    stop_preserves gcfg n none env.stopWait h
  cases hst : stop_process gcfg m n env.stopWait with
  | mk m1 r =>
    rw [hst] at h1
    cases r with
    | error e => exact h1
    | ok u =>
      cases u
      dsimp only
      cases hl : lookupP m1 n with
      | none => exact h1
      | some p =>
        dsimp only
        have hp := allInvS_lookup h1 hl
        have h2 : AllInvS (updateP m1 n (fun _ =>
            { p with restart_count := p.restart_count + 1
                     restart_timestamps := p.restart_timestamps ++ [env.now] })) :=
          allInvS_updateP h1 hp
        exact start_preserves n env.start h2

theorem wfe_preserves (name : String) :
    ∀ (iters : List (Bool × StartEnv)) (m : Mgr), AllInvS m →
      AllInvS (wait_for_external_process m name iters).1 := by
  intro iters
  induction iters with
  | nil => intro m h; exact h
  | cons it rest ih =>
    intro m h
    obtain ⟨flag, se⟩ := it
    unfold wait_for_external_process
    by_cases hf : flag = false
    · rw [if_pos hf]
      exact h
    · rw [if_neg hf]
      have h1 : AllInvS (start_process m name se).1 := start_preserves name se h
      cases hsp : start_process m name se with
      | mk m1 r =>
        rw [hsp] at h1
        cases r with
        | error e => exact h1
        | ok u =>
          cases u
          dsimp only
          by_cases hir : is_running m1 name = true
          · rw [if_pos hir]
            exact h1
          · rw [if_neg hir]
            exact ih m1 h1

theorem startOne_preserves (gcfg : GuardianConfig) (name : String)
    (env : StepEnv) {m : Mgr} (h : AllInvS m) :
    AllInvS (start_one gcfg m name env).1 := by
  unfold start_one
  cases hc : lookupC gcfg.processes name with
  | none => exact h
  | some pc =>
    dsimp only
    by_cases hm : pc.managed = false
    · rw [if_pos hm]
      exact wfe_preserves name env.extIters m h
    · rw [if_neg hm]
      have h1 : AllInvS (start_process m name env.start).1 :=
        start_preserves name env.start h
      cases hsp : start_process m name env.start with
      | mk m1 r =>
        rw [hsp] at h1
        cases r with
        | error e => exact h1
        | ok u =>
          cases u
          dsimp only
          cases wait_for_ready pc.ready env.ready with
          | error e => exact h1
          | ok u => cases u; exact h1

theorem startAll_preserves (gcfg : GuardianConfig) :
    ∀ (order : List String) (m : Mgr) (env : String → StepEnv), AllInvS m →
      AllInvS (start_all_with_flag gcfg m order env).1 := by
  intro order
  induction order with
  | nil => intro m env h; exact h
  | cons name rest ih =>
    intro m env h
    unfold start_all_with_flag
    by_cases hf : (env name).flag = false
    · rw [if_pos hf]
      exact h
    · rw [if_neg hf]
      have h1 := startOne_preserves gcfg name (env name) h
      cases hso : start_one gcfg m name (env name) with
      | mk m1 r =>
        rw [hso] at h1
        cases r with
        | error e => exact h1
        | ok u => cases u; exact ih m1 env h1

theorem stopSeq_preserves (gcfg : GuardianConfig) :
    ∀ (order : List String) (m : Mgr) (env : String → WaitOutcome), AllInvS m →
      AllInvS (stop_seq gcfg m order env).1 := by
  intro order
  induction order with
  | nil => intro m env h; exact h
  | cons name rest ih =>
    intro m env h
    unfold stop_seq
    exact ih _ env (stop_preserves gcfg name none (env name) h)

theorem stopAll_preserves (gcfg : GuardianConfig) (order : List String)
    (m : Mgr) (env : String → WaitOutcome) (h : AllInvS m) :
    AllInvS (stop_all gcfg m order env).1 :=
  stopSeq_preserves gcfg order.reverse m env h

/-- Manager states reachable from construction through completed
manager operations: the observation points of the spec.  Each step
takes arbitrary environment outcomes. -/
inductive Reachable (gcfg : GuardianConfig) : Mgr → Prop where
  | init : Reachable gcfg (newManager gcfg)
  | startStep (m : Mgr) (n : String) (env : StartEnv) :
      Reachable gcfg m → Reachable gcfg (start_process m n env).1
  | stopStep (m : Mgr) (n : String) (g : Option Nat) (w : WaitOutcome) :
      Reachable gcfg m → Reachable gcfg (stop_process_with_grace gcfg m n g w).1
  | restartStep (m : Mgr) (n : String) (env : RestartEnv) :
      Reachable gcfg m → Reachable gcfg (restart_process gcfg m n env).1
  | startAllStep (m : Mgr) (order : List String) (env : String → StepEnv) :
      Reachable gcfg m → Reachable gcfg (start_all_with_flag gcfg m order env).1
  | stopAllStep (m : Mgr) (order : List String) (env : String → WaitOutcome) :
      Reachable gcfg m → Reachable gcfg (stop_all gcfg m order env).1

theorem reachable_allInvS {gcfg : GuardianConfig} {m : Mgr}
    (h : Reachable gcfg m) : AllInvS m := by
  induction h with
  | init => exact allInvS_new gcfg
  | startStep m n env _ ih => exact start_preserves n env ih
  | stopStep m n g w _ ih => exact stop_preserves gcfg n g w ih
  | restartStep m n env _ ih => exact restart_preserves gcfg n env ih
  | startAllStep m order env _ ih => exact startAll_preserves gcfg order m env ih
  | stopAllStep m order env _ ih => exact stopAll_preserves gcfg order m env ih

/-! ### Field bookkeeping and frame lemmas -/

theorem stop_step_fields (gcfg : GuardianConfig) (p : ManagedProcess)
    (g : Option Nat) (w : WaitOutcome) :
    (stop_step gcfg p g w).state = ProcessState.Stopped ∧
    (stop_step gcfg p g w).pid = none ∧
    (stop_step gcfg p g w).child = none ∧
    (stop_step gcfg p g w).restart_count = p.restart_count ∧
    (stop_step gcfg p g w).restart_timestamps = p.restart_timestamps := by
  unfold stop_step
  by_cases hm : p.config.managed = false
  · rw [if_pos hm]
    exact ⟨rfl, rfl, rfl, rfl, rfl⟩
  · rw [if_neg hm]
    exact ⟨rfl, rfl, rfl, rfl, rfl⟩

/-- `start_process` never touches the entry of a different name. -/
theorem start_frame {m : Mgr} (n : String) (env : StartEnv) {y : String}
    (hy : y ≠ n) : lookupP (start_process m n env).1 y = lookupP m y := by
  unfold start_process
  cases hl : lookupP m n with
  | none => rfl
  | some p =>
    dsimp only
    by_cases hr : p.state = ProcessState.Running
    · rw [if_pos hr]
    · rw [if_neg hr]
      by_cases hm : p.config.managed = false
      · rw [if_pos hm]
        exact lookupP_updateP_ne _ hy
      · rw [if_neg hm]
        cases env.spawn with
        | ok pid => exact lookupP_updateP_ne _ hy
        | error e => exact lookupP_updateP_ne _ hy

/-- `stop_process_with_grace` never touches the entry of a different
name. -/
theorem stop_frame (gcfg : GuardianConfig) {m : Mgr} (n : String)
    (g : Option Nat) (w : WaitOutcome) {y : String} (hy : y ≠ n) :
    lookupP (stop_process_with_grace gcfg m n g w).1 y = lookupP m y := by
  unfold stop_process_with_grace
  cases hl : lookupP m n with
  | none => rfl
  | some p =>
    dsimp only
    by_cases hs : p.state = ProcessState.Stopped
    · rw [if_pos hs]
    · rw [if_neg hs]
      exact lookupP_updateP_ne _ hy

/-- `wait_for_external_process` only ever mutates its own name. -/
theorem wfe_frame (n : String) {y : String} (hy : y ≠ n) :
    ∀ (iters : List (Bool × StartEnv)) (m : Mgr),
      lookupP (wait_for_external_process m n iters).1 y = lookupP m y := by
  intro iters
  induction iters with
  | nil => intro m; rfl
  | cons it rest ih =>
    intro m
    obtain ⟨flag, se⟩ := it
    unfold wait_for_external_process
    by_cases hf : flag = false
    · rw [if_pos hf]
    · rw [if_neg hf]
      have hfr : lookupP (start_process m n se).1 y = lookupP m y := start_frame n se hy
      cases hsp : start_process m n se with
      | mk m1 r =>
        rw [hsp] at hfr
        cases r with
        | error e => exact hfr
        | ok u =>
          cases u
          dsimp only
          by_cases hir : is_running m1 n = true
          · rw [if_pos hir]
            exact hfr
          · rw [if_neg hir]
            rw [ih m1]
            exact hfr

/-- One `start_all` iteration body never touches another name. -/
theorem startOne_frame (gcfg : GuardianConfig) (name : String) (env : StepEnv)
    {m : Mgr} {y : String} (hy : y ≠ name) :
    lookupP (start_one gcfg m name env).1 y = lookupP m y := by
  unfold start_one
  cases hc : lookupC gcfg.processes name with
  | none => rfl
  | some pc =>
    dsimp only
    by_cases hm : pc.managed = false
    · rw [if_pos hm]
      exact wfe_frame name hy env.extIters m
    · rw [if_neg hm]
      have hfr := start_frame name env.start (m := m) hy
      cases hsp : start_process m name env.start with
      | mk m1 r =>
        rw [hsp] at hfr
        cases r with
        | error e => exact hfr
        | ok u =>
          cases u
          dsimp only
          cases wait_for_ready pc.ready env.ready with
          | error e => exact hfr
          | ok u => cases u; exact hfr

/-- The `start_all` loop leaves every name outside its order list
untouched. -/
theorem startAll_frame (gcfg : GuardianConfig) {y : String} :
    ∀ (order : List String) (m : Mgr) (env : String → StepEnv),
      y ∉ order →
      lookupP (start_all_with_flag gcfg m order env).1 y = lookupP m y := by
  intro order
  induction order with
  | nil => intro m env _; rfl
  | cons name rest ih =>
    intro m env hy
    have hyn : y ≠ name := fun hh => hy (hh ▸ List.mem_cons_self name rest)
    have hyr : y ∉ rest := fun hh => hy (List.mem_cons_of_mem name hh)
    unfold start_all_with_flag
    by_cases hf : (env name).flag = false
    · rw [if_pos hf]
    · rw [if_neg hf]
      have hfr := startOne_frame gcfg name (env name) (m := m) hyn
      cases hso : start_one gcfg m name (env name) with
      | mk m1 r =>
        rw [hso] at hfr
        cases r with
        | error e => exact hfr
        | ok u =>
          cases u
          rw [ih m1 env hyr]
          exact hfr

/-- Discovery never changes restart bookkeeping. -/
theorem discover_bookkeeping (p : ManagedProcess) (env : StartEnv) :
    (discover_external_process p env).1.restart_count = p.restart_count ∧
    (discover_external_process p env).1.restart_timestamps = p.restart_timestamps := by
  unfold discover_external_process
  dsimp only
  cases findMatch env.table (fileBaseFallback p.config.command) with
  | some pid => exact ⟨rfl, rfl⟩
  | none => exact ⟨rfl, rfl⟩

/-- `start_process` keeps its own entry present and never changes
restart bookkeeping. -/
theorem start_bookkeeping {m : Mgr} {n : String} {p : ManagedProcess}
    (env : StartEnv) (hl : lookupP m n = some p) :
    ∃ p', lookupP (start_process m n env).1 n = some p' ∧
      p'.restart_count = p.restart_count ∧
      p'.restart_timestamps = p.restart_timestamps := by
  unfold start_process
  rw [hl]
  dsimp only
  by_cases hr : p.state = ProcessState.Running
  · rw [if_pos hr]
    exact ⟨p, hl, rfl, rfl⟩
  · rw [if_neg hr]
    by_cases hm : p.config.managed = false
    · rw [if_pos hm]
      have hb := discover_bookkeeping p env
      cases hd : discover_external_process p env with
      | mk p' r =>
        rw [hd] at hb
        exact ⟨p', lookupP_updateP_self _ hl, hb.1, hb.2⟩
    · rw [if_neg hm]
      cases env.spawn with
      | ok pid => exact ⟨_, lookupP_updateP_self _ hl, rfl, rfl⟩
      | error e => exact ⟨_, lookupP_updateP_self _ hl, rfl, rfl⟩

/-- `stop_process_with_grace` on a configured name returns Ok, keeps
the entry present, and never changes restart bookkeeping. -/
theorem stop_bookkeeping (gcfg : GuardianConfig) {m : Mgr} {n : String}
    {p : ManagedProcess} (g : Option Nat) (w : WaitOutcome)
    (hl : lookupP m n = some p) :
    (stop_process_with_grace gcfg m n g w).2 = Except.ok () ∧
    ∃ p', lookupP (stop_process_with_grace gcfg m n g w).1 n = some p' ∧
      p'.restart_count = p.restart_count ∧
      p'.restart_timestamps = p.restart_timestamps := by
  unfold stop_process_with_grace
  rw [hl]
  dsimp only
  by_cases hs : p.state = ProcessState.Stopped
  · rw [if_pos hs]
    exact ⟨rfl, p, hl, rfl, rfl⟩
  · rw [if_neg hs]
    exact ⟨rfl, _, lookupP_updateP_self _ hl,
      (stop_step_fields gcfg p g w).2.2.2.1, (stop_step_fields gcfg p g w).2.2.2.2⟩

/-- After `stop_process_with_grace` the named entry is Stopped (the
already-Stopped branch included). -/
theorem stop_makes_stopped (gcfg : GuardianConfig) {m : Mgr} {n : String}
    {p : ManagedProcess} (g : Option Nat) (w : WaitOutcome)
    (hl : lookupP m n = some p) :
    ∃ p', lookupP (stop_process_with_grace gcfg m n g w).1 n = some p' ∧
      p'.state = ProcessState.Stopped := by
  unfold stop_process_with_grace
  rw [hl]
  dsimp only
  by_cases hs : p.state = ProcessState.Stopped
  · rw [if_pos hs]
    exact ⟨p, hl, hs⟩
  · rw [if_neg hs]
    exact ⟨_, lookupP_updateP_self _ hl, (stop_step_fields gcfg p g w).1⟩

/-- A stop call keeps every entry present, and either leaves it alone
or leaves it Stopped. -/
theorem stop_presence (gcfg : GuardianConfig) {m : Mgr} (n : String)
    (g : Option Nat) (w : WaitOutcome) {y : String} {q : ManagedProcess}
    (hq : lookupP m y = some q) :
    ∃ q', lookupP (stop_process_with_grace gcfg m n g w).1 y = some q' ∧
      (q' = q ∨ q'.state = ProcessState.Stopped) := by
  by_cases hy : y = n
  · subst hy
    obtain ⟨q', hl', hs'⟩ := stop_makes_stopped gcfg g w hq
    exact ⟨q', hl', Or.inr hs'⟩
  · rw [stop_frame gcfg n g w hy]
    exact ⟨q, hq, Or.inl rfl⟩

theorem stopSeq_trace (gcfg : GuardianConfig) :
    ∀ (l : List String) (m : Mgr) (env : String → WaitOutcome),
      (stop_seq gcfg m l env).2 = l := by
  intro l
  induction l with
  | nil => intro m env; rfl
  | cons name rest ih =>
    intro m env
    unfold stop_seq
    dsimp only
    rw [ih]

theorem stopSeq_stopped_stays (gcfg : GuardianConfig) :
    ∀ (l : List String) (m : Mgr) (env : String → WaitOutcome)
      (y : String) (q : ManagedProcess),
      lookupP m y = some q → q.state = ProcessState.Stopped →
      ∃ q', lookupP (stop_seq gcfg m l env).1 y = some q' ∧
        q'.state = ProcessState.Stopped := by
  intro l
  induction l with
  | nil => intro m env y q hq hs; exact ⟨q, hq, hs⟩
  | cons name rest ih =>
    intro m env y q hq hs
    unfold stop_seq stop_process
    dsimp only
    obtain ⟨q1, hq1, hcase⟩ := stop_presence gcfg name none (env name) hq
    have hs1 : q1.state = ProcessState.Stopped := by
      rcases hcase with h | h
      · rw [h]; exact hs
      · exact h
    exact ih _ env y q1 hq1 hs1

theorem stopSeq_stops_members (gcfg : GuardianConfig) :
    ∀ (l : List String) (m : Mgr) (env : String → WaitOutcome)
      (y : String) (q : ManagedProcess),
      y ∈ l → lookupP m y = some q →
      ∃ q', lookupP (stop_seq gcfg m l env).1 y = some q' ∧
        q'.state = ProcessState.Stopped := by
  intro l
  induction l with
  | nil => intro m env y q hy hq; exact absurd hy (List.not_mem_nil y)
  | cons name rest ih =>
    intro m env y q hy hq
    unfold stop_seq stop_process
    dsimp only
    rcases List.mem_cons.mp hy with hyn | hyr
    · subst hyn
      obtain ⟨q1, hq1, hs1⟩ := stop_makes_stopped gcfg none (env y) hq
      exact stopSeq_stopped_stays gcfg rest _ env y q1 hq1 hs1
    · obtain ⟨q1, hq1, _⟩ := stop_presence gcfg name none (env name) hq
      exact ih _ env y q1 hyr hq1

/-- The timed-out port poll: when no admitted connect attempt
succeeds, `wait_for_port` returns the timeout error. -/
theorem wait_for_port_timeout (port : Nat) :
    ∀ (connects : List Bool), (∀ c ∈ connects, c = false) →
      wait_for_port port connects =
        Except.error ("Timeout waiting for port " ++ toString port) := by
  intro connects
  induction connects with
  | nil => intro _; rfl
  | cons c rest ih =>
    intro hall
    have hc : c = false := hall c (List.mem_cons_self c rest)
    unfold wait_for_port
    rw [hc]
    simp only [Bool.false_eq_true, if_false]
    exact ih (fun b hb => hall b (List.mem_cons_of_mem c hb))

/-- Splitting the `start_all` loop: when the shutdown flag stays up
through a prefix, running the loop on `pre ++ rest` is running it on
`pre` and, if that succeeded, continuing with `rest` from the
resulting manager. -/
theorem startAll_append (gcfg : GuardianConfig) :
    ∀ (pre rest : List String) (m : Mgr) (env : String → StepEnv),
      (∀ n_, n_ ∈ pre → (env n_).flag = true) →
      start_all_with_flag gcfg m (pre ++ rest) env =
        (match start_all_with_flag gcfg m pre env with
         | (m1, Except.ok _) => start_all_with_flag gcfg m1 rest env
         | (m1, Except.error e) => (m1, Except.error e)) := by
  intro pre
  induction pre with
  | nil => intro rest m env _; rfl
  | cons name pre' ih =>
    intro rest m env hflags
    have hfn : (env name).flag = true := hflags name (List.mem_cons_self name pre')
    have hfr : ∀ n_, n_ ∈ pre' → (env n_).flag = true :=
      fun n_ hn => hflags n_ (List.mem_cons_of_mem name hn)
    have hcond : ¬((env name).flag = false) := by
      rw [hfn]; exact fun h => Bool.noConfusion h
    have hL : start_all_with_flag gcfg m ((name :: pre') ++ rest) env =
        (if (env name).flag = false then (m, Except.ok ()) else
          match start_one gcfg m name (env name) with
          | (m1, Except.error e) => (m1, Except.error e)
          | (m1, Except.ok ()) => start_all_with_flag gcfg m1 (pre' ++ rest) env) := rfl
    have hR : start_all_with_flag gcfg m (name :: pre') env =
        (if (env name).flag = false then (m, Except.ok ()) else
          match start_one gcfg m name (env name) with
          | (m1, Except.error e) => (m1, Except.error e)
          | (m1, Except.ok ()) => start_all_with_flag gcfg m1 pre' env) := rfl
    rw [hL, hR, if_neg hcond, if_neg hcond]
    cases hso : start_one gcfg m name (env name) with
    | mk m1 r =>
      cases r with
      | error e => rfl
      | ok u =>
        cases u
        dsimp only
        exact ih rest m1 env hfr

/-! ### Concrete fixtures used by the witnesses -/

def readyTime : ReadyConfig :=
  { method := ReadyMethod.Time, timeout := 5, pattern := none, port := none }

def readyPort : ReadyConfig :=
  { method := ReadyMethod.Port, timeout := 30, pattern := none, port := some 8080 }

def pcA : ProcessConfig :=
  { command := "/usr/local/bin/srv-a", args := [], envVars := [],
    working_dir := ".", managed := true, restart_delay := 2, ready := readyTime }

def pcX : ProcessConfig :=
  { command := "/usr/local/bin/srv-x", args := [], envVars := [],
    working_dir := ".", managed := true, restart_delay := 2, ready := readyPort }

def pcC : ProcessConfig :=
  { command := "/usr/local/bin/srv-c", args := [], envVars := [],
    working_dir := ".", managed := true, restart_delay := 2, ready := readyTime }

def pcExt : ProcessConfig :=
  { command := "/usr/local/bin/openclaw", args := [], envVars := [],
    working_dir := ".", managed := false, restart_delay := 2, ready := readyTime }

def gcfg0 : GuardianConfig :=
  { processes := [("a", pcA), ("x", pcX), ("c", pcC), ("ext", pcExt)],
    advanced := { shutdown_grace_period := 10 } }

def mgr0 : Mgr := newManager gcfg0

def seA : StartEnv := { spawn := Except.ok 10, table := [], now := 0 }

def seX : StartEnv := { spawn := Except.ok 11, table := [], now := 1 }

def envF : String → StepEnv := fun n =>
  if n = "a" then
    { flag := true, start := seA, extIters := [],
      ready := { logRegexValid := true, portConnects := [] } }
  else if n = "x" then
    { flag := true, start := seX, extIters := [],
      ready := { logRegexValid := true, portConnects := [false, false] } }
  else
    { flag := true, start := seA, extIters := [],
      ready := { logRegexValid := true, portConnects := [] } }

/-! ### Claim theorems -/

/-- C1: for every managed process, at every observation point after
construction and after each completed manager operation (start, stop
with grace, restart, discovery, start_all, stop_all), the pid is
recorded exactly when the state is Running or Stopping. -/
theorem pid_present_iff_running_or_stopping {gcfg : GuardianConfig} {m : Mgr}
    (hreach : Reachable gcfg m) {name : String} {p : ManagedProcess}
    (hl : lookupP m name = some p) :
    p.pid.isSome = true ↔
      (p.state = ProcessState.Running ∨ p.state = ProcessState.Stopping) := by
  have hp := allInvS_lookup (reachable_allInvS hreach) hl
  constructor
  · intro hpid
    exact Or.inl (hp.1.mp hpid)
  · intro hor
    rcases hor with hr | hst
    · exact hp.1.mpr hr
    · exact absurd hst hp.2.2.1

def p1w : ManagedProcess :=
  { name := "a", config := pcA, state := ProcessState.Running,
    pid := some 10, child := some 10, started_at := some 0,
    restart_count := 0, last_exit_code := none, restart_timestamps := [] }

theorem pid_present_iff_running_or_stopping_witness :
    p1w.pid.isSome = true ↔
      (p1w.state = ProcessState.Running ∨ p1w.state = ProcessState.Stopping) :=
  @pid_present_iff_running_or_stopping gcfg0
    (start_process (newManager gcfg0) "a" seA).1
    (Reachable.startStep (newManager gcfg0) "a" seA Reachable.init)
    "a" p1w (by rfl)

/-- C2: `restart_process` on a configured name increments the restart
counter by exactly one and appends exactly one restart timestamp, and
this survives the subsequent start attempt whatever its outcome (the
bookkeeping happens before the re-start). -/
theorem restart_increments_counter_once (gcfg : GuardianConfig) (mgr : Mgr)
    (name : String) (p : ManagedProcess) (env : RestartEnv)
    (hl : lookupP mgr name = some p) :
    (lookupP (restart_process gcfg mgr name env).1 name).map
        (fun q => (q.restart_count, q.restart_timestamps)) =
      some (p.restart_count + 1, p.restart_timestamps ++ [env.now]) := by
  unfold restart_process stop_process
  obtain ⟨hok, p1, hl1, hc1, ht1⟩ := stop_bookkeeping gcfg none env.stopWait hl
  cases hstp : stop_process_with_grace gcfg mgr name none env.stopWait with
  | mk m1 r =>
    rw [hstp] at hok hl1
    cases r with
    | error e => exact absurd hok (by simp)
    | ok u =>
      cases u
      dsimp only
      rw [hl1]
      dsimp only
      have hl2 := lookupP_updateP_self (m := m1) (n := name)
        (fun _ => { p1 with restart_count := p1.restart_count + 1
                            restart_timestamps := p1.restart_timestamps ++ [env.now] }) hl1
      obtain ⟨p3, hl3, hc3, ht3⟩ := start_bookkeeping env.start hl2
      rw [hl3]
      simp [hc3, ht3, hc1, ht1]

def envR : RestartEnv := { stopWait := WaitOutcome.waitErr, now := 5, start := seA }

theorem restart_increments_counter_once_witness :
    (lookupP (restart_process gcfg0 mgr0 "a" envR).1 "a").map
        (fun q => (q.restart_count, q.restart_timestamps)) =
      some ((ManagedProcess.new "a" pcA).restart_count + 1,
        (ManagedProcess.new "a" pcA).restart_timestamps ++ [envR.now]) :=
  restart_increments_counter_once gcfg0 mgr0 "a" (ManagedProcess.new "a" pcA)
    envR (by rfl)

/-- C3: starting an already-Running process and stopping an
already-Stopped process return Ok and leave the whole manager map —
state, pid, restart counter and timestamps included — unchanged. -/
theorem start_running_and_stop_stopped_are_noops (gcfg : GuardianConfig)
    (mgr : Mgr) (name : String) (p : ManagedProcess) (g : Option Nat)
    (senv : StartEnv) (w : WaitOutcome) (hl : lookupP mgr name = some p) :
    (p.state = ProcessState.Running →
      start_process mgr name senv = (mgr, Except.ok ())) ∧
    (p.state = ProcessState.Stopped →
      stop_process_with_grace gcfg mgr name g w = (mgr, Except.ok ())) := by
  constructor
  · intro hr
    unfold start_process
    rw [hl]
    dsimp only
    rw [if_pos hr]
  · intro hs
    unfold stop_process_with_grace
    rw [hl]
    dsimp only
    rw [if_pos hs]

def runningRec : ManagedProcess :=
  { ManagedProcess.new "r" pcA with
      state := ProcessState.Running, pid := some 7, child := some 7 }

def mgrR : Mgr := [("r", runningRec)]

def stoppedRec : ManagedProcess := ManagedProcess.new "s" pcA

def mgrS : Mgr := [("s", stoppedRec)]

theorem start_running_and_stop_stopped_are_noops_witness :
    start_process mgrR "r" seA = (mgrR, Except.ok ()) ∧
    stop_process_with_grace gcfg0 mgrS "s" none WaitOutcome.waitErr =
      (mgrS, Except.ok ()) :=
  ⟨(start_running_and_stop_stopped_are_noops gcfg0 mgrR "r" runningRec none
      seA WaitOutcome.waitErr (by rfl)).1 (by rfl),
   (start_running_and_stop_stopped_are_noops gcfg0 mgrS "s" stoppedRec none
      seA WaitOutcome.waitErr (by rfl)).2 (by rfl)⟩

/-- Observation used by C4: the named entry exists and is Stopped with
pid and child handle cleared. -/
def stoppedCleared (m : Mgr) (n : String) : Bool :=
  match lookupP m n with
  | some p => (p.state == ProcessState.Stopped) && (p.pid == none) && (p.child == none)
  | none => false

/-- C4: for every configured process in a reachable manager state,
`stop_process_with_grace` returns Ok — wait errors, grace expiry with
force-kill, and kill errors included — and leaves the process Stopped
with pid and child handle cleared. -/
theorem stop_with_grace_always_ok_and_stopped (gcfg : GuardianConfig)
    (m : Mgr) (name : String) (p : ManagedProcess) (g : Option Nat)
    (w : WaitOutcome) (hreach : Reachable gcfg m)
    (hl : lookupP m name = some p) :
    (stop_process_with_grace gcfg m name g w).2 = Except.ok () ∧
    stoppedCleared (stop_process_with_grace gcfg m name g w).1 name = true := by
  have hp := allInvS_lookup (reachable_allInvS hreach) hl
  unfold stop_process_with_grace
  rw [hl]
  dsimp only
  by_cases hs : p.state = ProcessState.Stopped
  · rw [if_pos hs]
    refine ⟨rfl, ?_⟩
    unfold stoppedCleared
    rw [hl]
    have hnr : p.state ≠ ProcessState.Running := by simp [hs]
    have hpid : p.pid = none := invS_pid_none hp hnr
    have hchild : p.child = none := hp.2.2.2 hnr
    simp [hs, hpid, hchild]
  · rw [if_neg hs]
    refine ⟨rfl, ?_⟩
    unfold stoppedCleared
    rw [lookupP_updateP_self _ hl]
    have hf := stop_step_fields gcfg p g w
    simp [hf.1, hf.2.1, hf.2.2.1]

theorem stop_with_grace_always_ok_and_stopped_witness :
    (stop_process_with_grace gcfg0 (start_process (newManager gcfg0) "a" seA).1
      "a" none WaitOutcome.timedOut).2 = Except.ok () ∧
    stoppedCleared (stop_process_with_grace gcfg0
      (start_process (newManager gcfg0) "a" seA).1 "a" none
      WaitOutcome.timedOut).1 "a" = true :=
  stop_with_grace_always_ok_and_stopped gcfg0
    (start_process (newManager gcfg0) "a" seA).1 "a" p1w none
    WaitOutcome.timedOut
    (Reachable.startStep (newManager gcfg0) "a" seA Reachable.init) (by rfl)

/-- C5: for a configured `managed=false` process, `start_process` runs
discovery and never errors and never yields Failed; on the discovery
path a process-table match yields Running with the discovered pid and
no child handle, and no match yields Stopped with pid cleared. -/
theorem unmanaged_start_discovery_never_fails (mgr : Mgr) (name : String)
    (p : ManagedProcess) (env : StartEnv) (hl : lookupP mgr name = some p)
    (hm : p.config.managed = false) :
    (start_process mgr name env).2 = Except.ok () ∧
    (lookupP (start_process mgr name env).1 name).map (fun q => q.state) ≠
      some ProcessState.Failed ∧
    (p.state ≠ ProcessState.Running →
      ∀ pid, findMatch env.table (fileBaseFallback p.config.command) = some pid →
        (lookupP (start_process mgr name env).1 name).map
            (fun q => (q.state, q.pid, q.child)) =
          some (ProcessState.Running, some pid, none)) ∧
    (p.state ≠ ProcessState.Running →
      findMatch env.table (fileBaseFallback p.config.command) = none →
        (lookupP (start_process mgr name env).1 name).map
            (fun q => (q.state, q.pid)) =
          some (ProcessState.Stopped, none)) := by
  unfold start_process discover_external_process
  rw [hl]
  dsimp only
  by_cases hr : p.state = ProcessState.Running
  · rw [if_pos hr]
    refine ⟨rfl, ?_, ?_, ?_⟩
    · rw [hl]
      simp [hr]
    · intro hnr
      exact absurd hr hnr
    · intro hnr
      exact absurd hr hnr
  · rw [if_neg hr, if_pos hm]
    cases hfm : findMatch env.table (fileBaseFallback p.config.command) with
    | some pid =>
      dsimp only
      refine ⟨rfl, ?_, ?_, ?_⟩
      · rw [lookupP_updateP_self _ hl]
        simp
      · intro _ pid' hpid'
        cases hpid'
        rw [lookupP_updateP_self _ hl]
        simp
      · intro _ hnone
        cases hnone
    | none =>
      dsimp only
      refine ⟨rfl, ?_, ?_, ?_⟩
      · rw [lookupP_updateP_self _ hl]
        simp
      · intro _ pid' hpid'
        cases hpid'
      · intro _ _
        rw [lookupP_updateP_self _ hl]
        simp

/-- A one-row process table whose single entry matches `openclaw`. -/
def tblOpenclaw : List (Nat × ProcInfo) :=
  [(4242, { name := "openclaw", exe := some "/usr/local/bin/openclaw", cmd := ["openclaw"] })]

theorem unmanaged_start_discovery_never_fails_witness :
    (start_process mgr0 "ext" { spawn := Except.error (), table := tblOpenclaw, now := 9 }).2 =
      Except.ok () ∧
    (lookupP (start_process mgr0 "ext"
        { spawn := Except.error (), table := tblOpenclaw, now := 9 }).1 "ext").map
        (fun q => (q.state, q.pid, q.child)) =
      some (ProcessState.Running, some 4242, none) :=
  ⟨(unmanaged_start_discovery_never_fails mgr0 "ext" (ManagedProcess.new "ext" pcExt)
      { spawn := Except.error (), table := tblOpenclaw, now := 9 } (by rfl) (by rfl)).1,
   (unmanaged_start_discovery_never_fails mgr0 "ext" (ManagedProcess.new "ext" pcExt)
      { spawn := Except.error (), table := tblOpenclaw, now := 9 } (by rfl) (by rfl)).2.2.1
     (by simp [ManagedProcess.new]) 4242 (by rfl)⟩

/-- C10: for a name absent from the configured map, start and stop
return the "not found" error and leave the manager untouched, while
`is_running` answers false and `recent_restart_count` answers 0. -/
theorem unknown_name_behavior (gcfg : GuardianConfig) (mgr : Mgr)
    (name : String) (g : Option Nat) (w : WaitOutcome) (senv : StartEnv)
    (now window : Nat) (h : lookupP mgr name = none) :
    start_process mgr name senv =
      (mgr, Except.error ("Process '" ++ name ++ "' not found")) ∧
    stop_process_with_grace gcfg mgr name g w =
      (mgr, Except.error ("Process '" ++ name ++ "' not found")) ∧
    is_running mgr name = false ∧
    recent_restart_count mgr name now window = 0 := by
  refine ⟨?_, ?_, ?_, ?_⟩
  · unfold start_process
    rw [h]
  · unfold stop_process_with_grace
    rw [h]
  · unfold is_running
    rw [h]
  · unfold recent_restart_count
    rw [h]

theorem unknown_name_behavior_witness :
    start_process mgr0 "zzz" seA =
      (mgr0, Except.error ("Process '" ++ "zzz" ++ "' not found")) ∧
    stop_process_with_grace gcfg0 mgr0 "zzz" none WaitOutcome.waitErr =
      (mgr0, Except.error ("Process '" ++ "zzz" ++ "' not found")) ∧
    is_running mgr0 "zzz" = false ∧
    recent_restart_count mgr0 "zzz" 100 30 = 0 :=
  unknown_name_behavior gcfg0 mgr0 "zzz" none WaitOutcome.waitErr seA 100 30 (by rfl)

/-- With no expected args, the matcher is the three-way substring
disjunction. -/
theorem pm_no_expected (info : ProcInfo) (tok : String) :
    process_matches_with_args info tok [] =
      (strContains (strToLower info.name) (strToLower tok) ||
       exe_basename_match info.exe (strToLower tok) ||
       info.cmd.any (fun arg =>
         strContains (strToLower (fileBaseFallback arg)) (strToLower tok))) := by
  unfold process_matches_with_args
  dsimp only
  cases h1 : strContains (strToLower info.name) (strToLower tok) <;>
    cases h2 : exe_basename_match info.exe (strToLower tok) <;>
      cases h3 : info.cmd.any (fun arg =>
          strContains (strToLower (fileBaseFallback arg)) (strToLower tok)) <;>
        simp [h1, h2, h3]

theorem exe_basename_match_iff (exe : Option String) (cl : String) :
    exe_basename_match exe cl = true ↔
      ∃ e, exe = some e ∧ ∃ b, fileName e = some b ∧
        strContains (strToLower b) cl = true := by
  cases exe with
  | none => simp [exe_basename_match]
  | some e =>
    cases hf : fileName e with
    | none => simp [exe_basename_match, hf]
    | some b => simp [exe_basename_match, hf]

/-- C6: the matcher's documented examples — an executable basename
`openclaw`, a `node` process carrying `openclaw-gateway.js` in its
arguments, and the substring quirk `my-openclawtool` — all match the
token `openclaw`; and in general (no expected args) a match succeeds
exactly when the lowered token is a substring of the lowered process
name, the lowered executable basename, or some lowered argument
basename. -/
theorem matcher_substring_characterization :
    process_matches
      { name := "main", exe := some "/opt/bin/openclaw", cmd := [] } "openclaw" = true ∧
    process_matches
      { name := "node", exe := some "/usr/bin/node",
        cmd := ["node", "/srv/openclaw-gateway.js"] } "openclaw" = true ∧
    process_matches
      { name := "my-openclawtool", exe := none, cmd := [] } "openclaw" = true ∧
    ∀ (info : ProcInfo) (tok : String),
      process_matches_with_args info tok [] = true ↔
        (strContains (strToLower info.name) (strToLower tok) = true ∨
         (∃ e, info.exe = some e ∧ ∃ b, fileName e = some b ∧
            strContains (strToLower b) (strToLower tok) = true) ∨
         (∃ arg, arg ∈ info.cmd ∧
            strContains (strToLower (fileBaseFallback arg)) (strToLower tok) = true)) := by
  refine ⟨by decide, by decide, by decide, ?_⟩
  intro info tok
  rw [pm_no_expected]
  simp only [Bool.or_eq_true, List.any_eq_true, exe_basename_match_iff]
  exact or_assoc

theorem matcher_substring_characterization_witness :
    process_matches_with_args
      { name := "xopenclawy", exe := none, cmd := [] } "openclaw" [] = true :=
  (matcher_substring_characterization.2.2.2
    { name := "xopenclawy", exe := none, cmd := [] } "openclaw").mpr
    (Or.inl (by decide))

/-- C7 counterexample: an expected argument given as a path
(`dir/s.py`) whose basename does occur among the process argument
basenames, yet the matcher rejects — the code compares each expected
argument verbatim against the actual arguments' basenames and never
takes the expected argument's own basename. -/
theorem expected_args_basename_claim_counterexample :
    (∀ e ∈ ["dir/s.py"], ∃ a ∈ ["python3", "s.py"],
      fileBaseFallback a = fileBaseFallback e) ∧
    process_matches_with_args
      { name := "python3", exe := none, cmd := ["python3", "s.py"] }
      "zzz" ["dir/s.py"] = false := by
  decide

/-- C7 amended: with a non-empty expected-argument list, the match
succeeds when every expected argument, exactly as supplied, equals the
basename of some process argument — regardless of whether the token
matches anything. -/
theorem expected_args_exact_basename_match (p : ProcInfo) (tok : String)
    (expected : List String) (hne : expected ≠ [])
    (hall : ∀ e ∈ expected, ∃ a ∈ p.cmd, fileBaseFallback a = e) :
    process_matches_with_args p tok expected = true := by
  unfold process_matches_with_args
  dsimp only
  have hcond : (!expected.isEmpty &&
      expected.all (fun e => p.cmd.any (fun a => fileBaseFallback a == e))) = true := by
    rw [Bool.and_eq_true]
    constructor
    · cases expected with
      | nil => exact absurd rfl hne
      | cons h t => rfl
    · rw [List.all_eq_true]
      intro e he
      rw [List.any_eq_true]
      obtain ⟨a, ha, hab⟩ := hall e he
      exact ⟨a, ha, by simp [hab]⟩
  cases h1 : strContains (strToLower p.name) (strToLower tok) <;>
    cases h2 : exe_basename_match p.exe (strToLower tok) <;>
      cases h3 : p.cmd.any (fun arg =>
          strContains (strToLower (fileBaseFallback arg)) (strToLower tok)) <;>
        simp [h1, h2, h3, hcond]

theorem expected_args_exact_basename_match_witness :
    (["s.py"] ≠ ([] : List String)) ∧
    process_matches_with_args
      { name := "python3", exe := none, cmd := ["python3", "/x/s.py"] }
      "zzz" ["s.py"] = true :=
  ⟨by decide,
   expected_args_exact_basename_match
     { name := "python3", exe := none, cmd := ["python3", "/x/s.py"] }
     "zzz" ["s.py"] (by decide) (by decide)⟩

/-- C8: a port wait whose admitted connect attempts all fail returns
the timeout error, and during `start_all` that error aborts the whole
sequence: the result is exactly that error and every process after the
failing one in the dependency order is left untouched. -/
theorem port_timeout_aborts_start_all :
    (∀ (port : Nat) (connects : List Bool), (∀ c ∈ connects, c = false) →
      wait_for_port port connects =
        Except.error ("Timeout waiting for port " ++ toString port)) ∧
    (∀ (gcfg : GuardianConfig) (m : Mgr) (env : String → StepEnv)
       (pre : List String) (x : String) (post : List String)
       (m1 m2 : Mgr) (pc : ProcessConfig) (prt : Nat),
      (∀ n_, n_ ∈ pre → (env n_).flag = true) →
      start_all_with_flag gcfg m pre env = (m1, Except.ok ()) →
      (env x).flag = true →
      lookupC gcfg.processes x = some pc →
      pc.managed = true →
      pc.ready.method = ReadyMethod.Port →
      pc.ready.port = some prt →
      start_process m1 x (env x).start = (m2, Except.ok ()) →
      (∀ c ∈ (env x).ready.portConnects, c = false) →
      start_all_with_flag gcfg m (pre ++ x :: post) env =
        (m2, Except.error ("Timeout waiting for port " ++ toString prt)) ∧
      ∀ y, y ∈ post → y ∉ pre → y ≠ x → lookupP m2 y = lookupP m y) := by
  refine ⟨fun port => wait_for_port_timeout port, ?_⟩
  intro gcfg m env pre x post m1 m2 pc prt hflags hpre hfx hcx hman hmethod hport hsp hconn
  have hone : start_one gcfg m1 x (env x) =
      (m2, Except.error ("Timeout waiting for port " ++ toString prt)) := by
    unfold start_one
    rw [hcx]
    dsimp only
    have hmn : ¬(pc.managed = false) := by
      rw [hman]; exact fun h => Bool.noConfusion h
    rw [if_neg hmn, hsp]
    dsimp only
    unfold wait_for_ready
    rw [hmethod]
    dsimp only
    rw [hport]
    dsimp only
    rw [wait_for_port_timeout prt (env x).ready.portConnects hconn]
  have hcondx : ¬((env x).flag = false) := by
    rw [hfx]; exact fun h => Bool.noConfusion h
  have hXeq : start_all_with_flag gcfg m1 (x :: post) env =
      (if (env x).flag = false then (m1, Except.ok ()) else
        match start_one gcfg m1 x (env x) with
        | (mm, Except.error e) => (mm, Except.error e)
        | (mm, Except.ok ()) => start_all_with_flag gcfg mm post env) := rfl
  constructor
  · rw [startAll_append gcfg pre (x :: post) m env hflags, hpre]
    dsimp only
    rw [hXeq, if_neg hcondx, hone]
  · intro y hypost hynpre hynx
    have h2 : lookupP (start_process m1 x (env x).start).1 y = lookupP m1 y :=
      start_frame x (env x).start hynx
    rw [hsp] at h2
    have h3 : lookupP (start_all_with_flag gcfg m pre env).1 y = lookupP m y :=
      startAll_frame gcfg pre m env hynpre
    rw [hpre] at h3
    rw [h2]
    exact h3

theorem port_timeout_aborts_start_all_witness :
    start_all_with_flag gcfg0 mgr0 ["a", "x", "c"] envF =
      ((start_process (start_all_with_flag gcfg0 mgr0 ["a"] envF).1 "x"
          (envF "x").start).1,
       Except.error ("Timeout waiting for port " ++ toString 8080)) ∧
    lookupP (start_process (start_all_with_flag gcfg0 mgr0 ["a"] envF).1 "x"
        (envF "x").start).1 "c" =
      lookupP mgr0 "c" := by
  have h := port_timeout_aborts_start_all.2 gcfg0 mgr0 envF ["a"] "x" ["c"]
    (start_all_with_flag gcfg0 mgr0 ["a"] envF).1
    (start_process (start_all_with_flag gcfg0 mgr0 ["a"] envF).1 "x"
      (envF "x").start).1
    pcX 8080 (by decide) (by rfl) (by rfl) (by rfl) (by rfl) (by rfl) (by rfl)
    (by rfl) (by decide)
  exact ⟨h.1, h.2 "c" (by decide) (by decide) (by decide)⟩

/-- C9: `stop_all` issues stop to every process in the reverse of the
dependency order, always returns Ok (per-process errors are only
logged), and a failing stop does not prevent the rest: every
configured process in the order ends Stopped. -/
theorem stop_all_reverse_order_continue_on_error (gcfg : GuardianConfig)
    (mgr : Mgr) (order : List String) (env : String → WaitOutcome) :
    (stop_all gcfg mgr order env).2.2 = Except.ok () ∧
    (stop_all gcfg mgr order env).2.1 = order.reverse ∧
    ∀ name, name ∈ order → ∀ p, lookupP mgr name = some p →
      (lookupP (stop_all gcfg mgr order env).1 name).map (fun q => q.state) =
        some ProcessState.Stopped := by
  unfold stop_all
  have htr := stopSeq_trace gcfg order.reverse mgr env
  cases hsq : stop_seq gcfg mgr order.reverse env with
  | mk mf tr =>
    rw [hsq] at htr
    dsimp only
    refine ⟨rfl, htr, ?_⟩
    intro name hmem p hp
    obtain ⟨q', hq', hs'⟩ := stopSeq_stops_members gcfg order.reverse mgr env
      name p (List.mem_reverse.mpr hmem) hp
    rw [hsq] at hq'
    dsimp only at hq' ⊢
    rw [hq']
    simp [hs']

def m1s : Mgr := (start_process mgr0 "a" seA).1

theorem stop_all_reverse_order_continue_on_error_witness :
    (stop_all gcfg0 m1s ["a", "x", "c"] (fun _ => WaitOutcome.waitErr)).2.2 =
      Except.ok () ∧
    (stop_all gcfg0 m1s ["a", "x", "c"] (fun _ => WaitOutcome.waitErr)).2.1 =
      ["a", "x", "c"].reverse ∧
    (lookupP (stop_all gcfg0 m1s ["a", "x", "c"]
        (fun _ => WaitOutcome.waitErr)).1 "a").map (fun q => q.state) =
      some ProcessState.Stopped := by
  have h := stop_all_reverse_order_continue_on_error gcfg0 m1s ["a", "x", "c"]
    (fun _ => WaitOutcome.waitErr)
  exact ⟨h.1, h.2.1, h.2.2 "a" (by decide) p1w (by rfl)⟩

end Guardian
